import Mathlib

/-!
Verification of the Interactive Game Session Controller of
Junha7777/stockfish-chess, a shallow embedding of src/src/App.tsx.

The chess rules library (chess.js) is an external collaborator per the
design document, so it is modelled abstractly as a RulesEngine record of
capabilities; positions are an arbitrary type P. The React component
state is the SessionState record; the asynchronous engineMove request is
split into its synchronous prefix (everything before the await, which
issues the request) and its continuation (everything after the await,
which settles it). Each outstanding request carries the position object
its closure captured at issue time, exactly as the TSX closures do.
-/

namespace StockfishChess

/-- Side to move, the chess.js "w" / "b" colours. -/
inductive Color where
  | white
  | black
  deriving DecidableEq, Repr

/-- Squares are the coordinate strings chess.js uses, such as "e2". -/
abbrev Square := String

/-- A board occupant as returned by game.get(sq). -/
structure Piece where
  color : Color
  ptype : Char
  deriving DecidableEq, Repr

/-- The verbose move record chess.js returns from game.move and
game.moves: source and destination squares, the effective promotion
piece letter when the move is a promotion, and the SAN text. -/
structure MoveRec where
  fromSq : Square
  toSq : Square
  promotion : Option Char
  san : String
  deriving DecidableEq, Repr

/-- The argument object passed to game.move in App.tsx:
a from square, a to square, and an optional promotion letter. -/
structure MoveInput where
  fromSq : Square
  toSq : Square
  promotion : Option Char
  deriving DecidableEq, Repr

/-- The rules-engine capability consumed by the controller (section 6 of
the design document). Positions of type P are values: move returns the
updated position rather than mutating, which matches the source because
every mutation of a chess.js object is immediately followed by
setGame(new Chess(game.fen())), installing the mutated position. -/
structure RulesEngine (P : Type) where
  initial : P
  turn : P → Color
  get : P → Square → Option Piece
  movesFrom : P → Square → List MoveRec
  move : P → MoveInput → Option (MoveRec × P)
  isGameOver : P → Bool
  inCheck : P → Bool

/-- The evalInfo state field: centipawn score and mate count. The source
stores the centipawn score as a JS number; its value is only ever stored
and displayed, never computed with, so an integer carrier is used. -/
structure EvalInfo where
  cp : Option Int
  mate : Option Int
  deriving DecidableEq, Repr

/-- The React state of the StockfishChess component, one field per
useState hook plus the lastMoveRef ref (lines 35 to 46 of App.tsx). -/
structure SessionState (P : Type) where
  game : P
  selected : Option Square
  legalTargets : List Square
  history : List MoveRec
  engineDepth : Nat
  evalInfo : EvalInfo
  busy : Bool
  flip : Bool
  error : Option String
  promotionSquare : Option Square
  engineEnabled : Bool
  lastMove : Option MoveRec
  deriving DecidableEq, Repr

/-- An outstanding oracle request. The engineMove closure captures the
game object in scope when the request is issued; the continuation after
the await applies the reply to that captured object, not to whatever
position is current at settlement time. -/
structure Req (P : Type) where
  captured : P
  deriving DecidableEq, Repr

/-- The whole system: component state plus the outstanding requests. -/
structure Sys (P : Type) where
  st : SessionState P
  pending : List (Req P)
  deriving DecidableEq, Repr

/-- The initial component state (the useState initialisers). -/
def initState (R : RulesEngine P) : SessionState P :=
  { game := R.initial
    selected := none
    legalTargets := []
    history := []
    engineDepth := 12
    evalInfo := { cp := none, mate := none }
    busy := false
    flip := false
    error := none
    promotionSquare := none
    engineEnabled := true
    lastMove := none }

/-- Initial system: fresh state, no outstanding request. -/
def initSys (R : RulesEngine P) : Sys P :=
  { st := initState R, pending := [] }

/-! ## parseBestMove (App.tsx lines 11 to 17) -/

/-- JS String.prototype.trim: strip leading and trailing whitespace.
Implemented over the character list so the kernel can evaluate it; the
whitespace class is the ASCII one, which covers engine protocol text. -/
def jsTrim (s : String) : String :=
  String.mk (((s.toList.dropWhile Char.isWhitespace).reverse.dropWhile
    Char.isWhitespace).reverse)

/-- Accumulator worker for the whitespace split: collects the current
word in reverse in acc and emits it at each whitespace run or the end. -/
def splitWsAux : List Char → List Char → List String
  | [], acc => if acc = [] then [] else [String.mk acc.reverse]
  | c :: rest, acc =>
      if c.isWhitespace then
        if acc = [] then splitWsAux rest []
        else String.mk acc.reverse :: splitWsAux rest []
      else splitWsAux rest (c :: acc)

/-- JS trimmed.split on a whitespace regex: the empty string splits to a
single empty part, otherwise maximal whitespace runs separate the
non-empty parts. -/
def jsSplitWs (s : String) : List String :=
  if s = "" then [""] else splitWsAux s.toList []

/-- JS String.prototype.toLowerCase restricted to its ASCII action,
which is all the bestmove comparison needs. -/
def jsLower (s : String) : String :=
  String.mk (s.toList.map Char.toLower)

/-- True for a file letter a to h. -/
def isFileChar (c : Char) : Bool := decide ('a' ≤ c) && decide (c ≤ 'h')

/-- True for a rank digit 1 to 8. -/
def isRankChar (c : Char) : Bool := decide ('1' ≤ c) && decide (c ≤ '8')

/-- True for a promotion letter q, r, b or n. -/
def isPromoChar (c : Char) : Bool := c == 'q' || c == 'r' || c == 'b' || c == 'n'

/-- The strict move-token pattern of line 16, a 4 or 5 character
coordinate plus optional promotion letter token. -/
def matchesPattern (s : String) : Bool :=
  match s.toList with
  | [a, b, c, d] => isFileChar a && isRankChar b && isFileChar c && isRankChar d
  | [a, b, c, d, e] =>
      isFileChar a && isRankChar b && isFileChar c && isRankChar d && isPromoChar e
  | _ => false

/-- The candidate token of lines 13 to 15: the part following a
case-insensitive bestmove part when that following part exists and is
non-empty (JS truthiness), otherwise the first part. -/
def extractToken (best : String) : String :=
  let parts := jsSplitWs (jsTrim best)
  match parts.findIdx? (fun p => jsLower p == "bestmove") with
  | some i =>
      match parts.get? (i + 1) with
      | some w => if w = "" then parts.headD "" else w
      | none => parts.headD ""
  | none => parts.headD ""

/-- parseBestMove of lines 11 to 17. A null or empty input is falsy and
returns null at line 12; otherwise the candidate token is returned
exactly when it matches the strict pattern. -/
def parseBestMove : Option String → Option String
  | none => none
  | some best =>
      if best = "" then none
      else if matchesPattern (extractToken best) then some (extractToken best) else none

/-- Decoding of a validated token in engineMove lines 117 to 119:
slice(0,2), slice(2,4), and the fifth character when present. -/
def decodeUci (uci : String) : MoveInput :=
  { fromSq := String.mk (uci.toList.take 2)
    toSq := String.mk ((uci.toList.drop 2).take 2)
    promotion := if uci.toList.length = 5 then uci.toList.get? 4 else none }

/-! ## Session handlers (App.tsx lines 60 to 153) -/

/-- The synchronous prefix of engineMove (lines 108 to 112) as run by a
closure whose game variable is closureGame: bail out when the engine is
disabled or the closure position is game over, otherwise set busy, clear
the error, and put one request on the wire capturing that position. -/
def engineMoveCallOn (R : RulesEngine P) (sys : Sys P) (closureGame : P) : Sys P :=
  if !sys.st.engineEnabled then sys
  else if R.isGameOver closureGame then sys
  else
    { st := { sys.st with busy := true, error := none }
      pending := sys.pending ++ [{ captured := closureGame }] }

/-- engineMove invoked against the current position. -/
def engineMoveCall (R : RulesEngine P) (sys : Sys P) : Sys P :=
  engineMoveCallOn R sys sys.st.game

/-- The tail of onSquareClick (lines 97 to 105): attempt the move with
default promotion q; on success record it, clear the selection, install
the new position, append to the history, and trigger engineMove on the
just-mutated game object when the engine is enabled; a null return from
game.move changes nothing. -/
def clickApply (R : RulesEngine P) (sys : Sys P) (sel sq : Square) : Sys P :=
  match R.move sys.st.game { fromSq := sel, toSq := sq, promotion := some 'q' } with
  | none => sys
  | some (mv, g2) =>
      if sys.st.engineEnabled then
        engineMoveCallOn R
          { sys with st := { sys.st with
                               lastMove := some mv
                               selected := none
                               legalTargets := []
                               game := g2
                               history := sys.st.history ++ [mv] } } g2
      else
        { sys with st := { sys.st with
                             lastMove := some mv
                             selected := none
                             legalTargets := []
                             game := g2
                             history := sys.st.history ++ [mv] } }

/-- Lines 87 to 105 of onSquareClick, reached when the clicked square
does not hold a piece of the side to move: without a selection it is a
no-op; with one, a found legal move that is a promotion suspends into
the promotion sub-flow, otherwise the move is attempted. -/
def clickTryMove (R : RulesEngine P) (sys : Sys P) (sq : Square) : Sys P :=
  match sys.st.selected with
  | none => sys
  | some sel =>
      match (R.movesFrom sys.st.game sel).find? (fun m => m.toSq == sq) with
      | some tm =>
          if tm.promotion.isSome then
            { sys with st := { sys.st with promotionSquare := some sq } }
          else clickApply R sys sel sq
      | none => clickApply R sys sel sq

/-- onSquareClick (lines 74 to 106): ignored while busy, after game
over, or while a promotion choice is pending; a click on a piece of the
side to move selects it and recomputes the legal targets; anything else
falls through to the move attempt. -/
def clickEv (R : RulesEngine P) (sys : Sys P) (sq : Square) : Sys P :=
  if sys.st.busy || R.isGameOver sys.st.game then sys
  else if sys.st.promotionSquare.isSome then sys
  else
    match R.get sys.st.game sq with
    | some pc =>
        if pc.color = R.turn sys.st.game then
          { sys with
              st := { sys.st with
                        selected := some sq
                        legalTargets := (R.movesFrom sys.st.game sq).map (fun m => m.toSq) } }
        else clickTryMove R sys sq
    | none => clickTryMove R sys sq

/-- handlePromotion (lines 60 to 72): without both a pending promotion
square and a selection it returns; otherwise the pending from and to
are applied with the chosen piece, and only on success is the sub-flow
cleared, the position installed, the history appended, and engineMove
triggered; a rejection by the rules engine changes nothing. -/
def handlePromotionEv (R : RulesEngine P) (sys : Sys P) (p : Char) : Sys P :=
  match sys.st.promotionSquare, sys.st.selected with
  | some ps, some sel =>
      (match R.move sys.st.game { fromSq := sel, toSq := ps, promotion := some p } with
       | none => sys
       | some (mv, g2) =>
           if sys.st.engineEnabled then
             engineMoveCallOn R
               { sys with st := { sys.st with
                                    lastMove := some mv
                                    promotionSquare := none
                                    selected := none
                                    legalTargets := []
                                    game := g2
                                    history := sys.st.history ++ [mv] } } g2
           else
             { sys with st := { sys.st with
                                  lastMove := some mv
                                  promotionSquare := none
                                  selected := none
                                  legalTargets := []
                                  game := g2
                                  history := sys.st.history ++ [mv] } })
  | _, _ => sys

/-- The synchronous body of newGame (lines 136 to 144): a fresh
position, cleared history, selection, legal targets, evaluation and
error, and the orientation set from the chosen side. Note which fields
are absent: busy, promotionSquare, engineDepth, engineEnabled and
lastMoveRef are not touched. -/
def newGameReset (R : RulesEngine P) (sys : Sys P) (playAs : Color) : Sys P :=
  { sys with
      st := { sys.st with
                game := R.initial
                history := []
                selected := none
                legalTargets := []
                evalInfo := { cp := none, mate := none }
                error := none
                flip := decide (playAs = Color.black) } }

/-- newGame (lines 136 to 148): the reset, then, when playing black with
the engine enabled, the deferred engineMove call of line 146. That call
runs a closure whose game variable still denotes the object of the
render that created newGame, i.e. the position from before the reset,
so the issued request captures the old position. -/
def newGameEv (R : RulesEngine P) (sys : Sys P) (playAs : Color) : Sys P :=
  if playAs = Color.black ∧ sys.st.engineEnabled = true then
    engineMoveCallOn R (newGameReset R sys playAs) sys.st.game
  else newGameReset R sys playAs

/-- The lastFromTo view (lines 150 to 153): the from and to squares of
the lastMoveRef record, or null when no move has been recorded yet. -/
def lastFromTo (st : SessionState P) : Option (Square × Square) :=
  st.lastMove.map (fun m => (m.fromSq, m.toSq))

/-- The disabled predicate of the Engine Move button (line 188). -/
def engineButtonDisabled (R : RulesEngine P) (st : SessionState P) : Bool :=
  !st.engineEnabled || st.busy || R.isGameOver st.game

/-- Pressing the Engine Move button: a disabled button delivers no
click, otherwise engineMove runs on the current position. -/
def engineButtonPress (R : RulesEngine P) (sys : Sys P) : Sys P :=
  if engineButtonDisabled R sys.st then sys else engineMoveCall R sys

/-- How a request settles, seen from the continuation of engineMove
after the await: a rejected fetch, a non-2xx HTTP status (fetchBestMove
line 25 throws with this message), or a JSON body carrying the
evaluation, mate and bestmove fields (non-number evaluation and
non-string bestmove fields arrive as null). -/
inductive OracleResult where
  | fetchError (msg : String)
  | httpError (status : Nat)
  | ok (evaluation : Option Int) (mate : Option Int) (bestmove : Option String)
  deriving DecidableEq, Repr

/-- The continuation of engineMove after the await (lines 114 to 133),
run when request req settles with result r against the current system
state: thrown errors land in the catch block which records the message;
on a body the evaluation is stored, then a missing valid token records
the no-move error, an applicable token is applied to the captured
position and the result installed, and a token the rules engine rejects
changes nothing silently; the finally block always clears busy. -/
def settleReq (R : RulesEngine P) (sys : Sys P) (req : Req P) (r : OracleResult) : Sys P :=
  match r with
  | .fetchError msg =>
      { sys with st := { sys.st with error := some msg, busy := false } }
  | .httpError status =>
      { sys with st := { sys.st with
                           error := some ("Engine HTTP " ++ toString status)
                           busy := false } }
  | .ok evaluation mate bestmove =>
      match parseBestMove bestmove with
      | none =>
          { sys with st := { sys.st with
                               evalInfo := { cp := evaluation, mate := mate }
                               error := some "엔진이 유효한 수를 주지 않았음"
                               busy := false } }
      | some uci =>
          match R.move req.captured (decodeUci uci) with
          | none =>
              { sys with st := { sys.st with
                                   evalInfo := { cp := evaluation, mate := mate }
                                   busy := false } }
          | some (mv, g2) =>
              { sys with st := { sys.st with
                                   evalInfo := { cp := evaluation, mate := mate }
                                   lastMove := some mv
                                   game := g2
                                   history := sys.st.history ++ [mv]
                                   busy := false } }

/-- Settlement of the i-th outstanding request with result r. -/
def settleEv (R : RulesEngine P) (sys : Sys P) (i : Nat) (r : OracleResult) : Sys P :=
  match sys.pending.get? i with
  | none => sys
  | some req => settleReq R { sys with pending := sys.pending.eraseIdx i } req r

/-! ## Event semantics -/

/-- The discrete external events the session processes one at a time:
board clicks, promotion-dialog clicks, the Engine Move button, the two
New buttons, and the settlement of an outstanding oracle request. -/
inductive Event where
  | click (sq : Square)
  | promo (p : Char)
  | engineBtn
  | newgame (playAs : Color)
  | settle (i : Nat) (r : OracleResult)
  deriving DecidableEq, Repr

/-- One event step. -/
def stepEv (R : RulesEngine P) (sys : Sys P) : Event → Sys P
  | .click sq => clickEv R sys sq
  | .promo p => handlePromotionEv R sys p
  | .engineBtn => engineButtonPress R sys
  | .newgame playAs => newGameEv R sys playAs
  | .settle i r => settleEv R sys i r

/-- Run a list of events from a system state. -/
def run (R : RulesEngine P) (sys : Sys P) : List Event → Sys P
  | [] => sys
  | e :: es => run R (stepEv R sys e) es

/-- Freshness of one event: a settlement is fresh when the position the
settling request captured at issue time still equals the current
position; every other event is trivially fresh. -/
def freshAt (sys : Sys P) : Event → Prop
  | .settle i _ => ∀ req, sys.pending.get? i = some req → req.captured = sys.st.game
  | _ => True

/-- A trace settles fresh when every settlement along it is fresh at the
moment it is processed. -/
def SettlesFresh (R : RulesEngine P) : Sys P → List Event → Prop
  | _, [] => True
  | sys, e :: es => freshAt sys e ∧ SettlesFresh R (stepEv R sys e) es

/-! ## Replaying the ledger -/

/-- Replay a move list through the rules engine from a position, using
the from, to and promotion fields the ledger records. -/
def replay (R : RulesEngine P) : List MoveRec → P → Option P
  | [], p => some p
  | m :: ms, p =>
      (R.move p { fromSq := m.fromSq, toSq := m.toSq, promotion := m.promotion }).bind
        (fun pr => replay R ms pr.2)

/-- The single-authoritative-position invariant: the ledger replayed
from the initial position reproduces the current position. -/
def ReplayInv (R : RulesEngine P) (sys : Sys P) : Prop :=
  replay R sys.st.history R.initial = some sys.st.game

/-- The rules-engine coherence the replay property relies on: the record
an accepted move returns describes that same move, so re-submitting the
recorded from, to and promotion yields the same record and position.
chess.js satisfies this because a legal chess move is determined by its
source, destination and promotion piece. -/
def ReplayCoherent (R : RulesEngine P) : Prop :=
  ∀ g inp mv g2, R.move g inp = some (mv, g2) →
    R.move g { fromSq := mv.fromSq, toSq := mv.toSq, promotion := mv.promotion } = some (mv, g2)

/-! ## A tiny concrete rules engine for witnesses and counterexamples -/

/-- The one move the toy engine accepts, from a1 to a2. -/
def recA : MoveRec := { fromSq := "a1", toSq := "a2", promotion := none, san := "a2" }

/-- A miniature concrete rules engine over Nat positions: a white piece
sits on a1 in every position, its only legal move goes to a2, and
applying that move increments the position counter; everything else is
rejected. It exists to instantiate the abstract theorems on decidable
concrete inputs. -/
def Toy : RulesEngine Nat :=
  { initial := 0
    turn := fun _ => Color.white
    get := fun _ sq => if sq = "a1" then some { color := Color.white, ptype := 'p' } else none
    movesFrom := fun _ sq => if sq = "a1" then [recA] else []
    move := fun p inp =>
      if inp.fromSq = "a1" ∧ inp.toSq = "a2" then some (recA, p + 1) else none
    isGameOver := fun _ => false
    inCheck := fun _ => false }

/-- The toy engine is replay coherent. -/
theorem toy_replayCoherent : ReplayCoherent Toy := by
  intro g inp mv g2 h
  simp only [Toy] at h ⊢
  by_cases hc : inp.fromSq = "a1" ∧ inp.toSq = "a2"
  · rw [if_pos hc] at h
    cases h
    simp [recA]
  · rw [if_neg hc] at h
    cases h

/-- A trace that issues an engine request (triggered by the human move
a1 to a2), then starts a new game while the request is outstanding, and
only then lets the request settle with the reply a1a2. -/
def staleTrace : List Event :=
  [Event.click "a1", Event.click "a2", Event.newgame Color.white,
   Event.settle 0 (OracleResult.ok none none (some "a1a2"))]

/-- The same trace stopped just after the new-game reset, i.e. the new
game without the settlement. -/
def resetOnlyTrace : List Event :=
  [Event.click "a1", Event.click "a2", Event.newgame Color.white]

/-- A race-free trace: the human move triggers a request and the request
settles before anything else happens. -/
def goodTrace : List Event :=
  [Event.click "a1", Event.click "a2",
   Event.settle 0 (OracleResult.ok none none (some "bestmove a1a2"))]

example : (run Toy (initSys Toy) resetOnlyTrace).st.history = [] := by decide
example : (run Toy (initSys Toy) staleTrace).st.history = [recA] := by decide
example : (run Toy (initSys Toy) staleTrace).st.game = 2 := by decide
example : (run Toy (initSys Toy) goodTrace).st.game = 2 := by decide
example : (run Toy (initSys Toy) goodTrace).st.history = [recA, recA] := by decide
example : parseBestMove (some "bestmove a1a2") = some "a1a2" := by decide

/-! ## Frame lemmas -/

/-- Issuing a request never changes the position, the ledger or the
last-move record; it only sets busy, clears the error and appends to
the outstanding requests. -/
theorem engineMoveCallOn_frame (R : RulesEngine P) (sys : Sys P) (g : P) :
    (engineMoveCallOn R sys g).st.game = sys.st.game ∧
    (engineMoveCallOn R sys g).st.history = sys.st.history ∧
    (engineMoveCallOn R sys g).st.lastMove = sys.st.lastMove := by
  unfold engineMoveCallOn
  split
  · exact ⟨rfl, rfl, rfl⟩
  · split
    · exact ⟨rfl, rfl, rfl⟩
    · exact ⟨rfl, rfl, rfl⟩

/-- Appending one replayable move to a successfully replaying ledger. -/
theorem replay_snoc (R : RulesEngine P) {ms : List MoveRec} {p0 g g2 : P} {mv : MoveRec}
    (h : replay R ms p0 = some g)
    (hm : R.move g { fromSq := mv.fromSq, toSq := mv.toSq, promotion := mv.promotion }
        = some (mv, g2)) :
    replay R (ms ++ [mv]) p0 = some g2 := by
  induction ms generalizing p0 with
  | nil =>
      simp only [replay, Option.some.injEq] at h
      subst h
      simp [replay, hm]
  | cons m rest ih =>
      simp only [replay, List.cons_append] at h ⊢
      cases hmv : R.move p0 { fromSq := m.fromSq, toSq := m.toSq, promotion := m.promotion } with
      | none => rw [hmv] at h; simp at h
      | some pr =>
          rw [hmv] at h
          simp only [Option.some_bind] at h ⊢
          exact ih h

/-! ## Preservation of the replay invariant -/

/-- Helper: issuing a request preserves the replay invariant. -/
theorem replayInv_engineMoveCallOn (R : RulesEngine P) (sys : Sys P) (g : P)
    (h : ReplayInv R sys) : ReplayInv R (engineMoveCallOn R sys g) := by
  have hf := engineMoveCallOn_frame R sys g
  unfold ReplayInv at h ⊢
  rw [hf.2.1, hf.1]
  exact h

/-- Helper: the move-attempt tail of onSquareClick preserves the replay
invariant, given replay coherence of the engine. -/
theorem replayInv_clickApply (R : RulesEngine P) (hcoh : ReplayCoherent R)
    (sys : Sys P) (sel sq : Square) (h : ReplayInv R sys) :
    ReplayInv R (clickApply R sys sel sq) := by
  unfold clickApply
  split
  · exact h
  · rename_i mv g2 hm
    have hrep : replay R (sys.st.history ++ [mv]) R.initial = some g2 :=
      replay_snoc R h (hcoh _ _ _ _ hm)
    split
    · exact replayInv_engineMoveCallOn R _ g2 hrep
    · exact hrep

/-- Helper: the selected-piece branch of onSquareClick preserves the
replay invariant. -/
theorem replayInv_clickTryMove (R : RulesEngine P) (hcoh : ReplayCoherent R)
    (sys : Sys P) (sq : Square) (h : ReplayInv R sys) :
    ReplayInv R (clickTryMove R sys sq) := by
  unfold clickTryMove
  split
  · exact h
  · rename_i sel _
    split
    · rename_i tm _
      split
      · exact h
      · exact replayInv_clickApply R hcoh sys sel sq h
    · exact replayInv_clickApply R hcoh sys sel sq h

/-- Helper: onSquareClick preserves the replay invariant. -/
theorem replayInv_clickEv (R : RulesEngine P) (hcoh : ReplayCoherent R)
    (sys : Sys P) (sq : Square) (h : ReplayInv R sys) :
    ReplayInv R (clickEv R sys sq) := by
  unfold clickEv
  split
  · exact h
  · split
    · exact h
    · split
      · split
        · exact h
        · exact replayInv_clickTryMove R hcoh sys sq h
      · exact replayInv_clickTryMove R hcoh sys sq h

/-- Helper: handlePromotion preserves the replay invariant. -/
theorem replayInv_handlePromotion (R : RulesEngine P) (hcoh : ReplayCoherent R)
    (sys : Sys P) (p : Char) (h : ReplayInv R sys) :
    ReplayInv R (handlePromotionEv R sys p) := by
  unfold handlePromotionEv
  split
  · split
    · exact h
    · rename_i mv g2 hm
      have hrep : replay R (sys.st.history ++ [mv]) R.initial = some g2 :=
        replay_snoc R h (hcoh _ _ _ _ hm)
      split
      · exact replayInv_engineMoveCallOn R _ g2 hrep
      · exact hrep
  · exact h

/-- Helper: newGame establishes the replay invariant outright. -/
theorem replayInv_newGameEv (R : RulesEngine P) (sys : Sys P) (playAs : Color) :
    ReplayInv R (newGameEv R sys playAs) := by
  unfold newGameEv
  split
  · exact replayInv_engineMoveCallOn R _ _ rfl
  · exact rfl

/-- Helper: the Engine Move button preserves the replay invariant. -/
theorem replayInv_engineButtonPress (R : RulesEngine P) (sys : Sys P)
    (h : ReplayInv R sys) : ReplayInv R (engineButtonPress R sys) := by
  unfold engineButtonPress engineMoveCall
  split
  · exact h
  · exact replayInv_engineMoveCallOn R sys _ h

/-- Helper: settling a request whose captured position still equals the
current one preserves the replay invariant. -/
theorem replayInv_settleReq (R : RulesEngine P) (hcoh : ReplayCoherent R)
    (sys : Sys P) (req : Req P) (r : OracleResult)
    (hfresh : req.captured = sys.st.game) (h : ReplayInv R sys) :
    ReplayInv R (settleReq R sys req r) := by
  unfold settleReq
  split
  · exact h
  · exact h
  · split
    · exact h
    · split
      · exact h
      · rename_i uci _ mv g2 hm
        rw [hfresh] at hm
        have hco := hcoh _ _ _ _ hm
        exact replay_snoc R h hco

/-- Helper: a fresh settlement event preserves the replay invariant. -/
theorem replayInv_settleEv (R : RulesEngine P) (hcoh : ReplayCoherent R)
    (sys : Sys P) (i : Nat) (r : OracleResult)
    (hfresh : freshAt sys (Event.settle i r)) (h : ReplayInv R sys) :
    ReplayInv R (settleEv R sys i r) := by
  unfold settleEv
  split
  · exact h
  · rename_i req hget
    exact replayInv_settleReq R hcoh _ req r (hfresh req hget) h

/-- Helper: every fresh step preserves the replay invariant. -/
theorem replayInv_step (R : RulesEngine P) (hcoh : ReplayCoherent R)
    (sys : Sys P) (e : Event) (hf : freshAt sys e) (h : ReplayInv R sys) :
    ReplayInv R (stepEv R sys e) := by
  cases e with
  | click sq => exact replayInv_clickEv R hcoh sys sq h
  | promo p => exact replayInv_handlePromotion R hcoh sys p h
  | engineBtn => exact replayInv_engineButtonPress R sys h
  | newgame playAs => exact replayInv_newGameEv R sys playAs
  | settle i r => exact replayInv_settleEv R hcoh sys i r hf h

/-- Helper: running a trace whose settlements are all fresh preserves
the replay invariant. -/
theorem replayInv_run (R : RulesEngine P) (hcoh : ReplayCoherent R)
    (es : List Event) :
    ∀ sys : Sys P, ReplayInv R sys → SettlesFresh R sys es →
      ReplayInv R (run R sys es) := by
  induction es with
  | nil => intro sys h _; exact h
  | cons e es ih =>
      intro sys h hf
      exact ih _ (replayInv_step R hcoh sys e hf.1 h) hf.2

/-! ## Concrete states used by witnesses and counterexamples -/

/-- A state with a request already outstanding: busy is set, one request
is pending, and an error message from an earlier turn is displayed. -/
def sysBusy : Sys Nat :=
  { st := { initState Toy with busy := true, error := some "Engine HTTP 500" }
    pending := [{ captured := 0 }] }

/-- A PieceSelected state: a1 is selected with its legal target a2. -/
def sysSelected : Sys Nat :=
  { st := { initState Toy with selected := some "a1", legalTargets := ["a2"] }
    pending := [] }

/-- A state suspended in the promotion sub-flow after one move was
played: e7 selected, promotion square e8 pending. -/
def sysPendingPromo : Sys Nat :=
  { st := { initState Toy with
              game := 1
              history := [recA]
              selected := some "e7"
              promotionSquare := some "e8" }
    pending := [] }

/-- A promotion sub-flow state whose pending from and to the toy engine
rejects with every promotion piece. -/
def sysPromoReject : Sys Nat :=
  { st := { initState Toy with
              selected := some "e7"
              promotionSquare := some "e8"
              legalTargets := ["e8"] }
    pending := [] }

/-! ## Claim theorems -/

/-- Claim C1, recorded as a code bug: stale-reply safety fails. On the
trace staleTrace a request is issued (by the move a1 to a2), newGame
runs while it is outstanding, and the settlement then applies the reply
to the position captured at issue time and installs the result, so the
post-settlement history and position differ from those of the fresh
game (resetOnlyTrace), which are the empty ledger and the initial
position. -/
theorem stale_reply_applied_after_newGame :
    (run Toy (initSys Toy) staleTrace).st.history
        ≠ (run Toy (initSys Toy) resetOnlyTrace).st.history ∧
    (run Toy (initSys Toy) staleTrace).st.game
        ≠ (run Toy (initSys Toy) resetOnlyTrace).st.game ∧
    (run Toy (initSys Toy) resetOnlyTrace).st.history = [] ∧
    (run Toy (initSys Toy) resetOnlyTrace).st.game = Toy.initial := by decide

/-- Claim C2, counterexample: engineMove is not a no-op while busy. In
sysBusy the busy flag is set and one request is outstanding, yet
invoking engineMove issues a second request and changes state by
clearing the error, because the function checks engineEnabled and game
over but never busy. -/
theorem engineMove_while_busy_not_noop :
    sysBusy.st.busy = true ∧
    sysBusy.pending.length = 1 ∧
    (engineMoveCall Toy sysBusy).pending.length = 2 ∧
    (engineMoveCall Toy sysBusy).st.error ≠ sysBusy.st.error := by decide

/-- Claim C2, amended: the at-most-one-outstanding-request discipline is
enforced only at the entry points the UI exposes, not inside engineMove:
whenever busy is set, the Engine Move button is disabled (so pressing it
delivers nothing) and a square click is a complete no-op. -/
theorem busy_guard_is_ui_level (R : RulesEngine P) (sys : Sys P) (sq : Square)
    (h : sys.st.busy = true) :
    engineButtonDisabled R sys.st = true ∧
    engineButtonPress R sys = sys ∧
    clickEv R sys sq = sys := by
  have hd : engineButtonDisabled R sys.st = true := by
    unfold engineButtonDisabled
    rw [h]
    simp
  refine ⟨hd, ?_, ?_⟩
  · unfold engineButtonPress
    rw [hd]
    simp
  · unfold clickEv
    rw [h]
    simp

/-- Witness for the amended C2 at the concrete busy state. -/
theorem busy_guard_is_ui_level_witness :
    sysBusy.st.busy = true ∧
    engineButtonPress Toy sysBusy = sysBusy ∧
    clickEv Toy sysBusy "a1" = sysBusy :=
  ⟨rfl, (busy_guard_is_ui_level Toy sysBusy "a1" rfl).2.1,
    (busy_guard_is_ui_level Toy sysBusy "a1" rfl).2.2⟩

/-- Claim C3, counterexample: on the racy trace staleTrace, where a
new-game reset runs between the issue and the settlement of a request,
replaying the ledger from the initial position does not reproduce the
current position. -/
theorem replay_invariant_race_counterexample :
    ¬ (replay Toy (run Toy (initSys Toy) staleTrace).st.history Toy.initial
        = some (run Toy (initSys Toy) staleTrace).st.game) := by decide

/-- Claim C3, amended: along every event trace whose oracle settlements
all happen while the position still equals the one captured at issue
time (in particular, whenever no new-game reset or other position
change intervenes between issue and settlement), replaying the ledger
from the initial position through the rules engine reproduces the
current position; replay coherence of the rules engine is assumed as
in section 6. -/
theorem replay_ledger_invariant (R : RulesEngine P) (hcoh : ReplayCoherent R)
    (es : List Event) (hfresh : SettlesFresh R (initSys R) es) :
    replay R (run R (initSys R) es).st.history R.initial
      = some (run R (initSys R) es).st.game :=
  replayInv_run R hcoh es (initSys R) rfl hfresh

/-- Witness for the amended C3 on a concrete race-free trace with a
click-selection, a human move that issues a request, and its prompt
settlement applying the engine reply. -/
theorem replay_ledger_invariant_witness :
    SettlesFresh Toy (initSys Toy) goodTrace ∧
    replay Toy (run Toy (initSys Toy) goodTrace).st.history Toy.initial
      = some (run Toy (initSys Toy) goodTrace).st.game := by
  have hf : SettlesFresh Toy (initSys Toy) goodTrace := by
    refine ⟨trivial, trivial, ?_, trivial⟩
    intro req hreq
    injection hreq with h2
    rw [← h2]
    rfl
  exact ⟨hf, replay_ledger_invariant Toy toy_replayCoherent goodTrace hf⟩

/-- Claim C4, recorded as a code bug: newGame performs every reset the
claim lists except one, the pending promotion. From a state suspended
in the promotion sub-flow, newGame resets the position, history,
selection, evaluation and error, but promotionSquare keeps its value,
so the pending promotion survives the reset (and, with the selection
cleared, the promotion dialog can no longer even be completed). -/
theorem newGame_keeps_pending_promotion :
    (newGameEv Toy sysPendingPromo Color.white).st.promotionSquare = some "e8" ∧
    (newGameEv Toy sysPendingPromo Color.white).st.selected = none ∧
    (newGameEv Toy sysPendingPromo Color.white).st.history = [] ∧
    (newGameEv Toy sysPendingPromo Color.white).st.game = Toy.initial ∧
    (newGameEv Toy sysPendingPromo Color.white).st.evalInfo = { cp := none, mate := none } ∧
    (newGameEv Toy sysPendingPromo Color.white).st.error = none := by decide

/-- Claim C5, counterexample: when the rules engine rejects the pending
promotion combination, handlePromotion does not clear the pending
promotion and does not reset the selection; the call is a complete
no-op, contradicting the claimed reset to Idle. -/
theorem promotion_reject_leaves_subflow_in_place :
    (handlePromotionEv Toy sysPromoReject 'q').st.promotionSquare = some "e8" ∧
    (handlePromotionEv Toy sysPromoReject 'q').st.selected = some "e7" ∧
    handlePromotionEv Toy sysPromoReject 'q' = sysPromoReject := by decide

/-- Claim C5, amended: when the rules engine rejects the pending from
and to combined with the chosen piece, handlePromotion changes nothing
at all: position and history are unchanged, and the pending promotion
and the selection are left in place rather than being cleared. -/
theorem promotion_reject_noop (R : RulesEngine P) (sys : Sys P) (p : Char)
    (ps sel : Square)
    (hps : sys.st.promotionSquare = some ps) (hsel : sys.st.selected = some sel)
    (hrej : R.move sys.st.game { fromSq := sel, toSq := ps, promotion := some p } = none) :
    handlePromotionEv R sys p = sys := by
  unfold handlePromotionEv
  rw [hps, hsel]
  simp [hrej]

/-- Witness for the amended C5 at the concrete rejected promotion. -/
theorem promotion_reject_noop_witness :
    sysPromoReject.st.promotionSquare = some "e8" ∧
    handlePromotionEv Toy sysPromoReject 'q' = sysPromoReject :=
  ⟨rfl, promotion_reject_noop Toy sysPromoReject 'q' "e8" "e7" rfl rfl rfl⟩

/-- Claim C6: in a PieceSelected state, a click on a square that is
neither a destination of any legal move of the current selection nor a
square holding a piece of the side to move is a complete no-op: the
whole system state, hence in particular the selected square, the legal
targets, the position and the history, is unchanged. -/
theorem click_illegal_square_noop (R : RulesEngine P) (sys : Sys P) (sq sel : Square)
    (hsel : sys.st.selected = some sel)
    (hnotdest : ∀ m ∈ R.movesFrom sys.st.game sel, m.toSq ≠ sq)
    (hrej : R.move sys.st.game { fromSq := sel, toSq := sq, promotion := some 'q' } = none)
    (hnotown : ∀ pc, R.get sys.st.game sq = some pc → pc.color ≠ R.turn sys.st.game) :
    clickEv R sys sq = sys := by
  have happly : clickApply R sys sel sq = sys := by
    unfold clickApply
    rw [hrej]
  have hfind : (R.movesFrom sys.st.game sel).find? (fun m => m.toSq == sq) = none := by
    rw [List.find?_eq_none]
    intro m hmem
    simpa using hnotdest m hmem
  have htry : clickTryMove R sys sq = sys := by
    unfold clickTryMove
    split
    · rfl
    · rename_i sel2 hsel2
      rw [hsel] at hsel2
      injection hsel2 with he
      subst he
      split
      · rename_i tm hfindeq
        rw [hfind] at hfindeq
        exact Option.noConfusion hfindeq
      · exact happly
  unfold clickEv
  split
  · rfl
  · split
    · rfl
    · split
      · rename_i pc hget
        rw [if_neg (hnotown pc hget)]
        exact htry
      · exact htry

/-- Witness for C6: with a1 selected (targets a2), clicking the empty,
illegal square b5 changes nothing. -/
theorem click_illegal_square_noop_witness :
    sysSelected.st.selected = some "a1" ∧
    clickEv Toy sysSelected "b5" = sysSelected :=
  ⟨rfl,
    click_illegal_square_noop Toy sysSelected "b5" "a1" rfl
      (by decide) (by decide)
      (fun pc hget => Option.noConfusion hget)⟩

/-- Claim C7: every failed request settles softly. Whether the fetch
threw, the HTTP status was non-2xx, or the body carried no valid move
token, the continuation of engineMove leaves the position and the
history unchanged, records an error message, and clears busy so the
oracle is idle again; no such settlement escapes the handler. -/
theorem engine_failure_soft (R : RulesEngine P) (sys : Sys P) (req : Req P)
    (r : OracleResult)
    (h : (∃ msg, r = OracleResult.fetchError msg) ∨
         (∃ status, r = OracleResult.httpError status) ∨
         (∃ evaluation mate bestmove,
            r = OracleResult.ok evaluation mate bestmove ∧ parseBestMove bestmove = none)) :
    (settleReq R sys req r).st.game = sys.st.game ∧
    (settleReq R sys req r).st.history = sys.st.history ∧
    (settleReq R sys req r).st.error.isSome = true ∧
    (settleReq R sys req r).st.busy = false := by
  rcases h with ⟨msg, rfl⟩ | ⟨status, rfl⟩ | ⟨evaluation, mate, bestmove, rfl, hp⟩
  · exact ⟨rfl, rfl, rfl, rfl⟩
  · exact ⟨rfl, rfl, rfl, rfl⟩
  · simp [settleReq, hp]

/-- Witness for C7: a body whose bestmove field is null settles as a
soft failure against the concrete busy state. -/
theorem engine_failure_soft_witness :
    parseBestMove none = none ∧
    (settleReq Toy sysBusy { captured := 0 }
        (OracleResult.ok none none none)).st.history = sysBusy.st.history ∧
    (settleReq Toy sysBusy { captured := 0 }
        (OracleResult.ok none none none)).st.busy = false :=
  ⟨rfl,
    (engine_failure_soft Toy sysBusy { captured := 0 } (OracleResult.ok none none none)
      (Or.inr (Or.inr ⟨none, none, none, rfl, rfl⟩))).2.1,
    (engine_failure_soft Toy sysBusy { captured := 0 } (OracleResult.ok none none none)
      (Or.inr (Or.inr ⟨none, none, none, rfl, rfl⟩))).2.2.2⟩

/-- Helper: whatever parseBestMove returns matches the strict pattern. -/
theorem parseBestMove_matches {o : Option String} {t : String}
    (h : parseBestMove o = some t) : matchesPattern t = true := by
  cases o with
  | none => exact Option.noConfusion h
  | some best =>
      simp only [parseBestMove] at h
      split at h
      · exact Option.noConfusion h
      · split at h
        · cases h
          assumption
        · exact Option.noConfusion h

/-- Claim C8: parseBestMove returns null on null input; on a string it
returns the extracted candidate token (the part after a
case-insensitive bestmove, else the first part) exactly when that token
matches the strict coordinate-plus-promotion pattern; everything it
returns matches the pattern; and the settlement path applies a move
only when the bestmove field parsed to such a token. -/
theorem parseBestMove_spec :
    parseBestMove none = none ∧
    (∀ best : String,
        parseBestMove (some best) =
          if best = "" then none
          else if matchesPattern (extractToken best) then some (extractToken best)
          else none) ∧
    (∀ (o : Option String) (t : String),
        parseBestMove o = some t → matchesPattern t = true) ∧
    (∀ (Q : Type) (R : RulesEngine Q) (sys : Sys Q) (req : Req Q)
        (evaluation mate : Option Int) (bestmove : Option String),
        (settleReq R sys req (OracleResult.ok evaluation mate bestmove)).st.history
            ≠ sys.st.history →
        ∃ uci, parseBestMove bestmove = some uci ∧ matchesPattern uci = true) := by
  refine ⟨rfl, fun best => rfl, fun o t h => parseBestMove_matches h, ?_⟩
  intro Q R sys req evaluation mate bestmove hne
  simp only [settleReq] at hne
  cases hp : parseBestMove bestmove with
  | none =>
      rw [hp] at hne
      exact absurd rfl hne
  | some uci => exact ⟨uci, rfl, parseBestMove_matches hp⟩

/-- Witness for C8: a concrete engine line parses to its bestmove token,
which matches the pattern. -/
theorem parseBestMove_spec_witness : matchesPattern "e7e8q" = true :=
  parseBestMove_spec.2.2.1 (some "bestmove e7e8q ponder e8h5") "e7e8q" (by decide)

/-- Claim C9: while busy or after game over, a square click leaves the
whole system unchanged: no selection, no move, no promotion sub-flow,
and no oracle request. -/
theorem click_busy_or_over_noop (R : RulesEngine P) (sys : Sys P) (sq : Square)
    (h : sys.st.busy = true ∨ R.isGameOver sys.st.game = true) :
    clickEv R sys sq = sys := by
  unfold clickEv
  rcases h with h | h
  · rw [h]
    simp
  · rw [h]
    simp

/-- Witness for C9 at the concrete busy state. -/
theorem click_busy_or_over_noop_witness :
    sysBusy.st.busy = true ∧ clickEv Toy sysBusy "a1" = sysBusy :=
  ⟨rfl, click_busy_or_over_noop Toy sysBusy "a1" (Or.inl rfl)⟩

/-- Claim C10: the synchronous body of newGame leaves the busy flag and
the lastMoveRef record unchanged (they are not among its resets), and
the full newGame never touches lastMoveRef either, while the ledger is
cleared; hence the lastFromTo highlight still derives from the previous
game until a new move is applied, instead of being null as the empty
ledger would suggest. -/
theorem newGame_busy_lastMove_frame (R : RulesEngine P) (sys : Sys P) (playAs : Color) :
    (newGameReset R sys playAs).st.busy = sys.st.busy ∧
    (newGameReset R sys playAs).st.lastMove = sys.st.lastMove ∧
    (newGameEv R sys playAs).st.lastMove = sys.st.lastMove ∧
    (newGameReset R sys playAs).st.history = [] ∧
    lastFromTo (newGameReset R sys playAs).st = lastFromTo sys.st := by
  refine ⟨rfl, rfl, ?_, rfl, rfl⟩
  unfold newGameEv
  split
  · exact (engineMoveCallOn_frame R (newGameReset R sys playAs) sys.st.game).2.2
  · rfl

end StockfishChess
